import Mathlib

/-!
Shallow embedding of `src/streamlit.py` (team scatter-plot app):
the text-normalization function, the logo normalizer, the password gate
and the plot-building row loop, together with theorems settling the
specification claims.

Python strings are modelled as lists of Unicode code points (`List Nat`).
The library call `unicodedata.normalize('NFC', ·)` is external to the
repository, so it is a function parameter `nfc`; theorems that need a
property of it assume only the Unicode-standard fact that NFC is the
identity on ASCII-only strings.
-/

set_option autoImplicit false

namespace TeamScatter

/-- Python text: a list of Unicode code points. -/
abbrev Text := List Nat

/-- Code points of a Lean string, to write concrete Python strings. -/
def strCodes (s : String) : Text :=
  s.data.map Char.toNat

/-- A code point is ASCII when it is below 128. -/
def isAsciiCp (c : Nat) : Bool :=
  c < 128

/-- An ASCII-only string. -/
def asciiText (t : Text) : Prop :=
  ∀ c ∈ t, c < 128

/-- `bytes.encode('ascii', 'ignore')` then `decode`: drop every non-ASCII
code point. -/
def asciiIgnore (t : Text) : Text :=
  t.filter isAsciiCp

/-- `str.lower()` on one code point, restricted to the ASCII range the
source ever feeds it (the input has already been ASCII-folded). -/
def lowerCp (c : Nat) : Nat :=
  if 65 ≤ c ∧ c ≤ 90 then c + 32 else c

/-- `normalize_text` from `src/streamlit.py` lines 24-28:
`unicodedata.normalize('NFC', text).encode('ascii', 'ignore').decode('utf-8').lower()`.
The NFC step is the parameter `nfc`. -/
def normalize_text (nfc : Text → Text) (text : Text) : Text :=
  (asciiIgnore (nfc text)).map lowerCp

/-- The hypothesis used about NFC: it leaves ASCII-only strings unchanged
(every ASCII string is already in normal form C). -/
def nfcAsciiId (nfc : Text → Text) : Prop :=
  ∀ t : Text, asciiText t → nfc t = t

/-- Image contents are opaque to the script; PIL does the pixel work. -/
abbrev Image := Nat

/-- The resampling filters of `PIL.Image.Resampling` the model distinguishes;
the source only ever uses `LANCZOS`. -/
inductive Resampling where
  | lanczos
  | nearest
  | bilinear
deriving DecidableEq

/-- `PIL.Image.resize` is library code: a parameter of the development. -/
abbrev ResizeFn := Image → Nat × Nat → Resampling → Image

/-- A directory listing: file names paired with contents, in `os.listdir`
order. A `none` content is a file `Image.open` cannot read. -/
abbrev SrcDir := List (Text × Option Image)

/-- A writable directory: an association list from file name to contents. -/
abbrev OutDir := List (Text × Image)

/-- First-match association lookup (Python `dict` access / file lookup). -/
def lookupA {α : Type} : List (Text × α) → Text → Option α
  | [], _ => Option.none
  | (k, v) :: rest, n => if k = n then some v else lookupA rest n

/-- Saving a file: overwrite the entry with the same name, else append. -/
def writeFile (d : OutDir) (n : Text) (img : Image) : OutDir :=
  if (lookupA d n).isSome then
    d.map (fun p => if p.1 = n then (n, img) else p)
  else
    d ++ [(n, img)]

/-- `logo_file.endswith(".png")`. -/
def endsWithPng (f : Text) : Bool :=
  decide (strCodes ".png" <:+ f)

/-- `os.path.splitext(f)[0]` for a bare file name (no path separator):
split at the last dot, unless every character before it is a dot. -/
def splitextStem (f : Text) : Text :=
  match ((List.range f.length).filter (fun i => f.getD i 0 = 46)).getLast? with
  | Option.none => f
  | some i => if (f.take i).all (fun c => c = 46) then f else f.take i

/-- The loop body of `resize_logos` (lines 39-48), one source file at a
time: a non-`.png` file is skipped; an unreadable `.png` aborts the run
(the error carries the directory contents written so far); a readable
`.png` is resized and saved under its normalized name. -/
def resizeLoop (nfc : Text → Text) (resize : ResizeFn) (size : Nat × Nat) :
    SrcDir → OutDir → Except OutDir OutDir
  | [], acc => .ok acc
  | (name, img?) :: rest, acc =>
    if endsWithPng name then
      match img? with
      | Option.none => .error acc
      | some img =>
        resizeLoop nfc resize size rest
          (writeFile acc (normalize_text nfc (splitextStem name) ++ strCodes ".png")
            (resize img size .lanczos))
    else
      resizeLoop nfc resize size rest acc

/-- Result of one `resize_logos` run. -/
structure ResizeOutcome where
  outDirExists : Bool
  files : OutDir
  failed : Bool
deriving DecidableEq

/-- `resize_logos` (lines 31-48): create the output directory when absent
(an absent directory starts empty), then process every listed file. -/
def resize_logos (nfc : Text → Text) (resize : ResizeFn) (src : SrcDir)
    (outExists : Bool) (out : OutDir) (size : Nat × Nat) : ResizeOutcome :=
  let init := if outExists then out else []
  match resizeLoop nfc resize size src init with
  | .ok d => ⟨true, d, false⟩
  | .error d => ⟨true, d, true⟩

/-- A Python value in a dataset cell: `int`, `float` (modelled as a
rational), `str`, or `None`. -/
inductive PyVal where
  | int (n : Int)
  | float (q : ℚ)
  | str (s : Text)
  | none
deriving DecidableEq

/-- A dataset row: named columns with their cell values. -/
abbrev Row := List (Text × PyVal)

/-- Reading a cell; an absent column reads as `None` (`row.get(c, None)`;
the data frame rows the script iterates are rectangular). -/
def rowGet (row : Row) (c : Text) : PyVal :=
  (lookupA row c).getD PyVal.none

/-- `isinstance(v, (int, float))`. -/
def isRealNum : PyVal → Bool
  | .int _ => true
  | .float _ => true
  | _ => false

/-- The numeric value of a cell that passed `isRealNum`. -/
def toQ : PyVal → ℚ
  | .int n => (n : ℚ)
  | .float q => q
  | _ => 0

/-- The team-name column the script reads (line 152). -/
def equipoCol : Text :=
  strCodes "Equipo"

/-- One marker drawn on the axes: a logo image box centred at `(x, y)`,
or a fallback scatter dot. -/
inductive Marker where
  | logo (x y : ℚ) (img : Image) (zoom : ℚ)
  | dot (x y : ℚ) (color : Text) (size : ℚ) (label : Text)
deriving DecidableEq

/-- `add_logo_marker` (lines 132-148): normalize the team name, look the
logo file up in the normalized-logo directory, place the image at `(x, y)`
when found and a red dot labelled with the raw name otherwise. A non-string
team name makes `normalize_text` raise (`unicodedata.normalize` rejects
non-`str` input), modelled as `.error`. -/
def add_logo_marker (nfc : Text → Text) (logosDir : OutDir) (x y : ℚ)
    (team : PyVal) (zoom : ℚ) : Except Unit Marker :=
  match team with
  | .str s =>
    match lookupA logosDir (normalize_text nfc s ++ strCodes ".png") with
    | some img => .ok (.logo x y img zoom)
    | Option.none => .ok (.dot x y (strCodes "red") 50 s)
  | _ => .error ()

/-- The row loop (lines 151-161): skip any row whose x or y cell fails the
`isinstance` check, otherwise add one marker for the row. -/
def plotMarkers (nfc : Text → Text) (dir : OutDir) (xc yc : Text) :
    List Row → Except Unit (List Marker)
  | [] => .ok []
  | row :: rest =>
    if isRealNum (rowGet row xc) && isRealNum (rowGet row yc) then
      match add_logo_marker nfc dir (toQ (rowGet row xc)) (toQ (rowGet row yc))
          (rowGet row equipoCol) (2 / 5) with
      | .ok m => (plotMarkers nfc dir xc yc rest).map (fun ms => m :: ms)
      | .error e => .error e
    else
      plotMarkers nfc dir xc yc rest

/-- The numeric-validation test of line 157. -/
def validRow (xc yc : Text) (row : Row) : Bool :=
  isRealNum (rowGet row xc) && isRealNum (rowGet row yc)

/-- The string inside a `str` cell. -/
def strTeam : PyVal → Text
  | .str s => s
  | _ => []

/-- Whether a cell holds a Python `str`. -/
def isStrV : PyVal → Bool
  | .str _ => true
  | _ => false

/-- The marker a valid row with a string team name receives. -/
def rowMarker (nfc : Text → Text) (dir : OutDir) (xc yc : Text) (row : Row) :
    Marker :=
  let s := strTeam (rowGet row equipoCol)
  match lookupA dir (normalize_text nfc s ++ strCodes ".png") with
  | some img => .logo (toQ (rowGet row xc)) (toQ (rowGet row yc)) img (2 / 5)
  | Option.none =>
    .dot (toQ (rowGet row xc)) (toQ (rowGet row yc)) (strCodes "red") 50 s

/-- The numeric entries of one column, in row order (`df[c]`). -/
def colVals (df : List Row) (c : Text) : List ℚ :=
  df.filterMap (fun r =>
    match rowGet r c with
    | .int n => some ((n : ℚ))
    | .float q => some q
    | _ => Option.none)

/-- `df[c].max()`: `none` when the column has no numeric entry. -/
def colMax (df : List Row) (c : Text) : Option ℚ :=
  match colVals df c with
  | [] => Option.none
  | v :: vs => some (vs.foldl max v)

/-- Lines 126-128: the axis range for one column, forced to start at 0 and
to end at the column maximum plus 1. -/
def axis_bounds (df : List Row) (c : Text) : Option (ℚ × ℚ) :=
  (colMax df c).map (fun m => ((0 : ℚ), m + 1))

/-- A concrete stand-in for the resize function: keep the pixels. -/
def idResize : ResizeFn := fun i _ _ => i

/-- A concrete stand-in for the resize function: change the pixels. -/
def bumpResize : ResizeFn := fun i _ _ => i + 1

/-- A concrete two-row dataset: a fully valid row and a row whose x cell
is textual. -/
def sampleDf : List Row :=
  [[(strCodes "Equipo", PyVal.str (strCodes "U")),
      (strCodes "X", PyVal.int 10), (strCodes "Y", PyVal.int 5)],
    [(strCodes "Equipo", PyVal.str (strCodes "V")),
      (strCodes "X", PyVal.str (strCodes "n/a")),
      (strCodes "Y", PyVal.int 1)]]

/-- The transient session state the gate uses: the two submitted text
fields and the verdict flag, each possibly absent. -/
structure SessionState where
  username : Option Text
  password : Option Text
  password_correct : Option Bool
deriving DecidableEq

/-- `hmac.compare_digest` on two strings: functionally, equality (its
constant-time execution is a timing property outside the model). -/
def compare_digest (a b : Text) : Bool :=
  decide (a = b)

/-- `password_entered` (lines 64-76): look the submitted username up in
the secret mapping and compare the submitted password; on a match set the
flag and delete both credentials, otherwise record the failure. Reading an
absent widget key would raise, modelled as `.error`. -/
def password_entered (secrets : List (Text × Text)) (st : SessionState) :
    Except Unit SessionState :=
  match st.username, st.password with
  | some u, some p =>
    .ok (match lookupA secrets u with
      | some sec =>
        if compare_digest p sec then
          ⟨Option.none, Option.none, some true⟩
        else
          { st with password_correct := some false }
      | Option.none => { st with password_correct := some false })
  | _, _ => .error ()

/-- `check_password` (lines 54-86) on one run: returns whether the gate
opens and whether the inline error message is shown. -/
def check_password (st : SessionState) : Bool × Bool :=
  if st.password_correct.getD false then (true, false)
  else (false, st.password_correct.isSome)

theorem lowerCp_lt_128 {c : Nat} (h : c < 128) : lowerCp c < 128 := by
  unfold lowerCp
  split <;> omega

theorem lowerCp_idem (c : Nat) : lowerCp (lowerCp c) = lowerCp c := by
  unfold lowerCp
  split
  · rw [if_neg (by omega)]
  · rfl

theorem asciiIgnore_ascii (t : Text) : asciiText (asciiIgnore t) := by
  intro c hc
  have := List.of_mem_filter hc
  simpa [isAsciiCp] using this

theorem asciiIgnore_of_ascii {t : Text} (h : asciiText t) : asciiIgnore t = t := by
  unfold asciiIgnore
  apply List.filter_eq_self.mpr
  intro c hc
  simpa [isAsciiCp] using h c hc

theorem normalize_text_ascii (nfc : Text → Text) (t : Text) :
    asciiText (normalize_text nfc t) := by
  intro c hc
  unfold normalize_text at hc
  rcases List.mem_map.mp hc with ⟨d, hd, rfl⟩
  exact lowerCp_lt_128 (asciiIgnore_ascii _ d hd)

/-- C4: `normalize_text` is idempotent, given that NFC fixes ASCII strings. -/
theorem c4_normalize_text_idempotent (nfc : Text → Text) (hnfc : nfcAsciiId nfc)
    (s : Text) :
    normalize_text nfc (normalize_text nfc s) = normalize_text nfc s := by
  have hascii : asciiText (normalize_text nfc s) := normalize_text_ascii nfc s
  show (asciiIgnore (nfc (normalize_text nfc s))).map lowerCp = normalize_text nfc s
  rw [hnfc _ hascii, asciiIgnore_of_ascii hascii]
  show ((asciiIgnore (nfc s)).map lowerCp).map lowerCp = (asciiIgnore (nfc s)).map lowerCp
  rw [List.map_map]
  apply List.map_congr_left
  intro c _
  exact lowerCp_idem c

/-- Witness for C4 at a concrete accented input, with `nfc` the identity. -/
theorem c4_witness :
    normalize_text id (normalize_text id (strCodes "Café")) =
      normalize_text id (strCodes "Café") :=
  c4_normalize_text_idempotent id (fun _ _ => rfl) (strCodes "Café")

theorem lookupA_append {α : Type} (d e : List (Text × α)) (n : Text) :
    lookupA (d ++ e) n =
      match lookupA d n with
      | some v => some v
      | Option.none => lookupA e n := by
  induction d with
  | nil => rfl
  | cons p d ih =>
    obtain ⟨k, v⟩ := p
    by_cases hk : k = n
    · simp [lookupA, hk]
    · simp [lookupA, hk, ih]

theorem lookupA_cons {α : Type} (k : Text) (v : α) (rest : List (Text × α))
    (n : Text) :
    lookupA ((k, v) :: rest) n = if k = n then some v else lookupA rest n :=
  rfl

theorem lookupA_map_update (d : OutDir) (n m : Text) (img : Image) :
    lookupA (d.map (fun p => if p.1 = n then (n, img) else p)) m =
      if m = n then (lookupA d n).map (fun _ => img) else lookupA d m := by
  induction d with
  | nil => simp [lookupA]
  | cons p d ih =>
    obtain ⟨k, v⟩ := p
    rw [List.map_cons]
    by_cases hk : k = n
    · subst hk
      rw [show (if (k, v).1 = k then ((k, img) : Text × Image) else (k, v)) =
        (k, img) from by simp]
      by_cases hm : m = k
      · subst hm
        simp [lookupA_cons, ih]
      · simp [lookupA_cons, ih, hm, Ne.symm hm]
    · rw [show (if (k, v).1 = n then ((n, img) : Text × Image) else (k, v)) =
        (k, v) from by simp [hk]]
      by_cases hm : m = n
      · subst hm
        simp only [lookupA_cons, ih, if_pos rfl]
        rw [if_neg (Ne.symm (fun h => hk h.symm)), if_neg hk]
      · by_cases hkm : k = m
        · subst hkm
          simp [lookupA_cons, hm]
        · simp [lookupA_cons, ih, hm, hkm]

theorem lookupA_writeFile (d : OutDir) (n m : Text) (img : Image) :
    lookupA (writeFile d n img) m = if m = n then some img else lookupA d m := by
  unfold writeFile
  split
  · rename_i hs
    rw [lookupA_map_update]
    by_cases hm : m = n
    · subst hm
      obtain ⟨v, hv⟩ := Option.isSome_iff_exists.mp hs
      simp [hv]
    · simp [hm]
  · rename_i hs
    rw [lookupA_append]
    by_cases hm : m = n
    · subst hm
      have : lookupA d m = Option.none := by
        cases h : lookupA d m with
        | none => rfl
        | some v => exact absurd (by simp [h]) hs
      simp [this, lookupA]
    · cases h : lookupA d m with
      | none => simp [lookupA, Ne.symm hm, hm, h]
      | some v => simp [h, hm]

theorem mem_writeFile {d : OutDir} {n m : Text} {img j : Image}
    (h : (m, j) ∈ writeFile d n img) : (m = n ∧ j = img) ∨ (m, j) ∈ d := by
  unfold writeFile at h
  split at h
  · rcases List.mem_map.mp h with ⟨p, hp, heq⟩
    by_cases hk : p.1 = n
    · rw [if_pos hk] at heq
      left
      exact ⟨(Prod.mk.injEq _ _ _ _ |>.mp heq.symm).1,
        (Prod.mk.injEq _ _ _ _ |>.mp heq.symm).2⟩
    · rw [if_neg hk] at heq
      right
      rwa [heq] at hp
  · rcases List.mem_append.mp h with h | h
    · right
      exact h
    · left
      have := List.mem_singleton.mp h
      exact ⟨(Prod.mk.injEq _ _ _ _ |>.mp this).1,
        (Prod.mk.injEq _ _ _ _ |>.mp this).2⟩

/-- An unreadable `.png` anywhere in the listing turns the whole remaining
run into the error outcome, keeping exactly the files written before it. -/
theorem resizeLoop_append_unreadable (nfc : Text → Text) (resize : ResizeFn)
    (size : Nat × Nat) (f : Text) (post : SrcDir)
    (hpng : endsWithPng f = true) (pre : SrcDir) :
    ∀ acc mid : OutDir, resizeLoop nfc resize size pre acc = .ok mid →
      resizeLoop nfc resize size (pre ++ (f, Option.none) :: post) acc =
        .error mid := by
  induction pre with
  | nil =>
    intro acc mid h
    have hmid : acc = mid := by
      simpa [resizeLoop] using h
    subst hmid
    simp [resizeLoop, hpng]
  | cons p pre ih =>
    intro acc mid h
    obtain ⟨n, i?⟩ := p
    by_cases hn : endsWithPng n = true
    · cases i? with
      | none =>
        rw [show resizeLoop nfc resize size ((n, Option.none) :: pre) acc =
          .error acc by simp [resizeLoop, hn]] at h
        exact absurd h (by simp)
      | some img =>
        simp only [resizeLoop, hn, if_true, List.cons_append] at h ⊢
        exact ih _ _ h
    · simp only [resizeLoop, hn, if_false, List.cons_append,
        Bool.not_eq_true] at h ⊢
      rw [if_neg (by simp [hn])] at h ⊢
      exact ih _ _ h

/-- A name is present in a successful run's output exactly when it was
present initially or is the normalized name of some listed `.png`. -/
theorem resizeLoop_ok_lookup (nfc : Text → Text) (resize : ResizeFn)
    (size : Nat × Nat) (src : SrcDir) :
    ∀ acc out : OutDir, resizeLoop nfc resize size src acc = .ok out →
      ∀ n : Text, (lookupA out n).isSome = true ↔
        (∃ f i, (f, i) ∈ src ∧ endsWithPng f = true ∧
          n = normalize_text nfc (splitextStem f) ++ strCodes ".png") ∨
        (lookupA acc n).isSome = true := by
  induction src with
  | nil =>
    intro acc out h n
    have hout : acc = out := by simpa [resizeLoop] using h
    subst hout
    simp
  | cons p rest ih =>
    intro acc out h n
    obtain ⟨f, i?⟩ := p
    by_cases hf : endsWithPng f = true
    · cases i? with
      | none =>
        rw [show resizeLoop nfc resize size ((f, Option.none) :: rest) acc =
          .error acc from by simp [resizeLoop, hf]] at h
        exact absurd h (by simp)
      | some img =>
        rw [show resizeLoop nfc resize size ((f, some img) :: rest) acc =
          resizeLoop nfc resize size rest
            (writeFile acc
              (normalize_text nfc (splitextStem f) ++ strCodes ".png")
              (resize img size .lanczos)) from by simp [resizeLoop, hf]] at h
        rw [ih _ _ h n, lookupA_writeFile]
        constructor
        · rintro (⟨g, j, hmem, hp, hn⟩ | hacc)
          · exact Or.inl ⟨g, j, List.mem_cons_of_mem _ hmem, hp, hn⟩
          · by_cases hn : n = normalize_text nfc (splitextStem f) ++
              strCodes ".png"
            · exact Or.inl ⟨f, some img, List.mem_cons_self _ _, hf, hn⟩
            · rw [if_neg hn] at hacc
              exact Or.inr hacc
        · rintro (⟨g, j, hmem, hp, hn⟩ | hacc)
          · rcases List.mem_cons.mp hmem with heq | hmem'
            · have hg : g = f := (Prod.mk.injEq _ _ _ _ |>.mp heq).1
              subst hg
              right
              rw [if_pos hn]
              rfl
            · exact Or.inl ⟨g, j, hmem', hp, hn⟩
          · right
            split
            · rfl
            · exact hacc
    · rw [show resizeLoop nfc resize size ((f, i?) :: rest) acc =
        resizeLoop nfc resize size rest acc from by
          cases i? <;> simp [resizeLoop, hf]] at h
      rw [ih _ _ h n]
      constructor
      · rintro (⟨g, j, hmem, hp, hn⟩ | hacc)
        · exact Or.inl ⟨g, j, List.mem_cons_of_mem _ hmem, hp, hn⟩
        · exact Or.inr hacc
      · rintro (⟨g, j, hmem, hp, hn⟩ | hacc)
        · rcases List.mem_cons.mp hmem with heq | hmem'
          · exfalso
            have hg : g = f := (Prod.mk.injEq _ _ _ _ |>.mp heq).1
            rw [hg] at hp
            exact hf hp
          · exact Or.inl ⟨g, j, hmem', hp, hn⟩
        · exact Or.inr hacc

/-- Every entry of a successful run's output comes from the initial
directory or is the Lanczos-resize of some listed readable `.png`, stored
under its normalized name. -/
theorem resizeLoop_ok_content (nfc : Text → Text) (resize : ResizeFn)
    (size : Nat × Nat) (src : SrcDir) :
    ∀ acc out : OutDir, resizeLoop nfc resize size src acc = .ok out →
      ∀ n i, (n, i) ∈ out →
        (∃ f img, (f, some img) ∈ src ∧ endsWithPng f = true ∧
          n = normalize_text nfc (splitextStem f) ++ strCodes ".png" ∧
          i = resize img size .lanczos) ∨ (n, i) ∈ acc := by
  induction src with
  | nil =>
    intro acc out h n i hm
    right
    have hout : acc = out := by simpa [resizeLoop] using h
    subst hout
    exact hm
  | cons p rest ih =>
    intro acc out h n i hm
    obtain ⟨f, i?⟩ := p
    by_cases hf : endsWithPng f = true
    · cases i? with
      | none =>
        rw [show resizeLoop nfc resize size ((f, Option.none) :: rest) acc =
          .error acc from by simp [resizeLoop, hf]] at h
        exact absurd h (by simp)
      | some img =>
        rw [show resizeLoop nfc resize size ((f, some img) :: rest) acc =
          resizeLoop nfc resize size rest
            (writeFile acc
              (normalize_text nfc (splitextStem f) ++ strCodes ".png")
              (resize img size .lanczos)) from by simp [resizeLoop, hf]] at h
        rcases ih _ _ h n i hm with ⟨g, jm, hmem, hp, hn, hi⟩ | hacc
        · exact Or.inl ⟨g, jm, List.mem_cons_of_mem _ hmem, hp, hn, hi⟩
        · rcases mem_writeFile hacc with ⟨hn, hi⟩ | hmem
          · exact Or.inl ⟨f, img, List.mem_cons_self _ _, hf, hn, hi⟩
          · exact Or.inr hmem
    · rw [show resizeLoop nfc resize size ((f, i?) :: rest) acc =
        resizeLoop nfc resize size rest acc from by
          cases i? <;> simp [resizeLoop, hf]] at h
      rcases ih _ _ h n i hm with ⟨g, jm, hmem, hp, hn, hi⟩ | hacc
      · exact Or.inl ⟨g, jm, List.mem_cons_of_mem _ hmem, hp, hn, hi⟩
      · exact Or.inr hacc

/-- When every listed `.png` is readable, the run succeeds. -/
theorem resizeLoop_ok_of_readable (nfc : Text → Text) (resize : ResizeFn)
    (size : Nat × Nat) (src : SrcDir) :
    ∀ acc : OutDir, (∀ p ∈ src, endsWithPng p.1 = true → p.2.isSome = true) →
      ∃ out, resizeLoop nfc resize size src acc = .ok out := by
  induction src with
  | nil =>
    intro acc _
    exact ⟨acc, rfl⟩
  | cons p rest ih =>
    intro acc hread
    obtain ⟨f, i?⟩ := p
    by_cases hf : endsWithPng f = true
    · cases i? with
      | none =>
        exact absurd (hread (f, Option.none) (List.mem_cons_self _ _) hf)
          (by simp)
      | some img =>
        obtain ⟨out, hout⟩ := ih
          (writeFile acc (normalize_text nfc (splitextStem f) ++ strCodes ".png")
            (resize img size .lanczos))
          (fun q hq => hread q (List.mem_cons_of_mem _ hq))
        refine ⟨out, ?_⟩
        rw [show resizeLoop nfc resize size ((f, some img) :: rest) acc =
          resizeLoop nfc resize size rest
            (writeFile acc
              (normalize_text nfc (splitextStem f) ++ strCodes ".png")
              (resize img size .lanczos)) from by simp [resizeLoop, hf]]
        exact hout
    · obtain ⟨out, hout⟩ := ih acc
        (fun q hq => hread q (List.mem_cons_of_mem _ hq))
      refine ⟨out, ?_⟩
      rw [show resizeLoop nfc resize size ((f, i?) :: rest) acc =
        resizeLoop nfc resize size rest acc from by
          cases i? <;> simp [resizeLoop, hf]]
      exact hout

/-- C8: when a `.png` file in the source directory cannot be opened, the
run aborts with the unhandled error, and the output directory holds
exactly the files written before the failing one: nothing listed after it
is processed. -/
theorem c8_unreadable_fatal (nfc : Text → Text) (resize : ResizeFn)
    (size : Nat × Nat) (pre post : SrcDir) (f : Text) (mid : OutDir)
    (hpng : endsWithPng f = true)
    (hok : resizeLoop nfc resize size pre [] = .ok mid) :
    resize_logos nfc resize (pre ++ (f, Option.none) :: post) false [] size =
      ⟨true, mid, true⟩ := by
  show (match resizeLoop nfc resize size (pre ++ (f, Option.none) :: post)
      (if false then ([] : OutDir) else []) with
    | .ok d => (⟨true, d, false⟩ : ResizeOutcome)
    | .error d => ⟨true, d, true⟩) = ⟨true, mid, true⟩
  rw [show (if false then ([] : OutDir) else []) = [] from rfl,
    resizeLoop_append_unreadable nfc resize size f post hpng pre [] mid hok]

/-- Witness for C8: the readable file listed before the unreadable one is
written, the readable file listed after it is not. -/
theorem c8_witness :
    resize_logos id idResize
      ([(strCodes "a.png", some 7)] ++
        (strCodes "bad.png", Option.none) :: [(strCodes "c.png", some 9)])
      false [] (50, 50) = ⟨true, [(strCodes "a.png", 7)], true⟩ :=
  c8_unreadable_fatal id idResize (50, 50)
    [(strCodes "a.png", some 7)] [(strCodes "c.png", some 9)]
    (strCodes "bad.png") [(strCodes "a.png", 7)] (by decide) rfl

/-- C6: a category value whose normalized form matches no file in the
normalized-logo directory gets a red dot of fixed size 50 at the exact
`(x, y)` coordinate, labelled with the raw category value, and no error
is raised. -/
theorem c6_fallback_red_dot (nfc : Text → Text) (dir : OutDir) (x y zoom : ℚ)
    (s : Text)
    (hmiss : lookupA dir (normalize_text nfc s ++ strCodes ".png") = Option.none) :
    add_logo_marker nfc dir x y (.str s) zoom =
      .ok (.dot x y (strCodes "red") 50 s) := by
  simp only [add_logo_marker, hmiss]

/-- Witness for C6: an empty logo directory sends the spec's sample team
to a red dot at `(10, 5)` with the raw label. -/
theorem c6_witness :
    add_logo_marker id [] 10 5 (.str (strCodes "Universidad de Chile")) (2 / 5) =
      .ok (.dot 10 5 (strCodes "red") 50 (strCodes "Universidad de Chile")) :=
  c6_fallback_red_dot id [] 10 5 (2 / 5) (strCodes "Universidad de Chile") rfl

/-- C9: when the category column is absent so the category value is
`None`, a row with numeric x and y makes the run raise (modelled
`.error`), and any marker at all (so in particular the fallback dot) is
only produced for string category values. -/
theorem c9_none_team_raises :
    (∀ (nfc : Text → Text) (dir : OutDir) (xc yc : Text) (row : Row)
        (rest : List Row),
        rowGet row equipoCol = PyVal.none →
        isRealNum (rowGet row xc) = true →
        isRealNum (rowGet row yc) = true →
        plotMarkers nfc dir xc yc (row :: rest) = .error ()) ∧
    (∀ (nfc : Text → Text) (dir : OutDir) (x y zoom : ℚ) (team : PyVal)
        (m : Marker),
        add_logo_marker nfc dir x y team zoom = .ok m → isStrV team = true) := by
  constructor
  · intro nfc dir xc yc row rest h0 h1 h2
    simp only [plotMarkers, h1, h2, h0, Bool.and_self, if_true]
    rfl
  · intro nfc dir x y zoom team m hm
    cases team with
    | str s => rfl
    | int n => exact absurd hm (by simp [add_logo_marker])
    | float q => exact absurd hm (by simp [add_logo_marker])
    | none => exact absurd hm (by simp [add_logo_marker])

/-- Witness for C9: a two-column row with numeric cells and no `Equipo`
column makes the row loop fail. -/
theorem c9_witness :
    plotMarkers id [] (strCodes "X") (strCodes "Y")
      [[(strCodes "X", PyVal.int 10), (strCodes "Y", PyVal.int 5)]] =
      .error () :=
  c9_none_team_raises.1 id [] (strCodes "X") (strCodes "Y")
    [(strCodes "X", PyVal.int 10), (strCodes "Y", PyVal.int 5)] [] rfl rfl rfl

/-- C5: after a submission, the gate opens on the next run exactly when
the submitted username is a key of the secret mapping and the submitted
password equals its secret; on a match both submitted credentials are
deleted, and on a mismatch the gate stays closed and the error message is
shown. -/
theorem c5_access_gate (secrets : List (Text × Text)) (st : SessionState)
    (u p : Text) (hu : st.username = some u) (hp : st.password = some p) :
    ∃ st', password_entered secrets st = .ok st' ∧
      ((check_password st').1 = true ↔ lookupA secrets u = some p) ∧
      (lookupA secrets u = some p →
        st'.username = Option.none ∧ st'.password = Option.none) ∧
      (lookupA secrets u ≠ some p → check_password st' = (false, true)) := by
  unfold password_entered
  rw [hu, hp]
  cases hsec : lookupA secrets u with
  | none =>
    simp only [hsec]
    refine ⟨_, rfl, ?_, ?_, ?_⟩
    · simp [check_password]
    · intro h
      exact absurd h (by simp)
    · intro _
      simp [check_password]
  | some sec =>
    simp only [hsec]
    by_cases hps : p = sec
    · subst hps
      rw [if_pos (by simp [compare_digest])]
      refine ⟨_, rfl, ?_, ?_, ?_⟩
      · simp [check_password]
      · intro _
        exact ⟨rfl, rfl⟩
      · intro h
        exact absurd rfl h
    · rw [if_neg (by simp [compare_digest, hps])]
      refine ⟨_, rfl, ?_, ?_, ?_⟩
      · simp only [check_password]
        constructor
        · intro h
          simp at h
        · intro h
          exact absurd (Option.some_injective _ h).symm hps
      · intro h
        exact absurd (Option.some_injective _ h).symm hps
      · intro _
        simp [check_password]

/-- Witness for C5: the spec's scenario, credential store
`alice : secret` with a correct submission. -/
theorem c5_witness :
    ∃ st', password_entered [(strCodes "alice", strCodes "secret")]
        ⟨some (strCodes "alice"), some (strCodes "secret"), Option.none⟩ =
        .ok st' ∧
      ((check_password st').1 = true ↔
        lookupA [(strCodes "alice", strCodes "secret")] (strCodes "alice") =
          some (strCodes "secret")) ∧
      (lookupA [(strCodes "alice", strCodes "secret")] (strCodes "alice") =
          some (strCodes "secret") →
        st'.username = Option.none ∧ st'.password = Option.none) ∧
      (lookupA [(strCodes "alice", strCodes "secret")] (strCodes "alice") ≠
          some (strCodes "secret") → check_password st' = (false, true)) :=
  c5_access_gate [(strCodes "alice", strCodes "secret")]
    ⟨some (strCodes "alice"), some (strCodes "secret"), Option.none⟩
    (strCodes "alice") (strCodes "secret") rfl rfl

/-- Counterexample for C2: a dataset the plot builder accepts whose
selected column holds only the value `-2` yields bounds `(0, -1)`, which
violate `lower < upper`. -/
theorem c2_counterexample :
    axis_bounds [[(strCodes "X", PyVal.int (-2))]] (strCodes "X") =
      some ((0 : ℚ), -1) ∧ ¬((0 : ℚ) < -1) := by
  constructor
  · show (colMax [[(strCodes "X", PyVal.int (-2))]] (strCodes "X")).map
      (fun m => ((0 : ℚ), m + 1)) = some ((0 : ℚ), -1)
    have h : colMax [[(strCodes "X", PyVal.int (-2))]] (strCodes "X") =
        some (-2 : ℚ) := by
      show colMax [[(strCodes "X", PyVal.int (-2))]] (strCodes "X") =
        some ((-2 : Int) : ℚ)
      rfl
    rw [h]
    norm_num
  · norm_num

/-- C2 as amended: the computed bounds are `(0, max + 1)` on each axis and
satisfy `lower < upper` provided each selected column's maximum exceeds
`-1` (in particular for any nonnegative data, including single-row and
constant-column datasets); for data whose maximum is `-1` or below the
code produces a reversed range. -/
theorem c2_axis_bounds_amended (df : List Row) (xc yc : Text) (mx my : ℚ)
    (hx : colMax df xc = some mx) (hy : colMax df yc = some my)
    (hmx : (-1 : ℚ) < mx) (hmy : (-1 : ℚ) < my) :
    axis_bounds df xc = some (0, mx + 1) ∧
    axis_bounds df yc = some (0, my + 1) ∧
    (0 : ℚ) < mx + 1 ∧ (0 : ℚ) < my + 1 := by
  unfold axis_bounds
  rw [hx, hy]
  refine ⟨rfl, rfl, by linarith, by linarith⟩

/-- Witness for C2 as amended: a single-row dataset with a constant
column. -/
theorem c2_witness :
    axis_bounds [[(strCodes "X", PyVal.int 10), (strCodes "Y", PyVal.float 5)]]
        (strCodes "X") = some (0, (10 : ℚ) + 1) ∧
    axis_bounds [[(strCodes "X", PyVal.int 10), (strCodes "Y", PyVal.float 5)]]
        (strCodes "Y") = some (0, (5 : ℚ) + 1) ∧
    (0 : ℚ) < (10 : ℚ) + 1 ∧ (0 : ℚ) < (5 : ℚ) + 1 :=
  c2_axis_bounds_amended
    [[(strCodes "X", PyVal.int 10), (strCodes "Y", PyVal.float 5)]]
    (strCodes "X") (strCodes "Y") 10 5 rfl rfl (by norm_num) (by norm_num)

/-- C7: over a fully readable source directory, the run creates the
output directory (absent at start), fails nowhere, stores for every
listed `.png` a file under its normalized name with `.png` suffix, and
every stored file is the Lanczos-resize to the target size of some listed
`.png`; files without the extension produce no output file. -/
theorem c7_resize_logos_normalizes (nfc : Text → Text) (resize : ResizeFn)
    (src : SrcDir) (out0 : OutDir)
    (hread : ∀ p ∈ src, endsWithPng p.1 = true → p.2.isSome = true) :
    ∃ d : OutDir,
      resize_logos nfc resize src false out0 (50, 50) = ⟨true, d, false⟩ ∧
      (∀ f img, (f, some img) ∈ src → endsWithPng f = true →
        (lookupA d
          (normalize_text nfc (splitextStem f) ++ strCodes ".png")).isSome =
          true) ∧
      (∀ n i, (n, i) ∈ d →
        ∃ f img, (f, some img) ∈ src ∧ endsWithPng f = true ∧
          n = normalize_text nfc (splitextStem f) ++ strCodes ".png" ∧
          i = resize img (50, 50) .lanczos) := by
  obtain ⟨d, hd⟩ := resizeLoop_ok_of_readable nfc resize (50, 50) src [] hread
  refine ⟨d, ?_, ?_, ?_⟩
  · show (match resizeLoop nfc resize (50, 50) src
        (if false then out0 else []) with
      | .ok e => (⟨true, e, false⟩ : ResizeOutcome)
      | .error e => ⟨true, e, true⟩) = ⟨true, d, false⟩
    rw [show (if false then out0 else ([] : OutDir)) = [] from rfl, hd]
  · intro f img hmem hpng
    exact (resizeLoop_ok_lookup nfc resize (50, 50) src [] d hd _).mpr
      (Or.inl ⟨f, some img, hmem, hpng, rfl⟩)
  · intro n i hmem
    rcases resizeLoop_ok_content nfc resize (50, 50) src [] d hd n i hmem
      with h | h
    · exact h
    · exact absurd h (by simp)

/-- Witness for C7: one accented `.png` plus one unreadable non-image
file; the run succeeds and normalizes the one logo. -/
theorem c7_witness :
    ∃ d : OutDir,
      resize_logos id bumpResize
        [(strCodes "Café.png", some 3), (strCodes "notes.txt", Option.none)]
        false [(strCodes "stale.png", 0)] (50, 50) = ⟨true, d, false⟩ ∧
      (∀ f img,
        (f, some img) ∈
          ([(strCodes "Café.png", some 3),
            (strCodes "notes.txt", Option.none)] : SrcDir) →
        endsWithPng f = true →
        (lookupA d
          (normalize_text id (splitextStem f) ++ strCodes ".png")).isSome =
          true) ∧
      (∀ n i, (n, i) ∈ d →
        ∃ f img,
          (f, some img) ∈
            ([(strCodes "Café.png", some 3),
              (strCodes "notes.txt", Option.none)] : SrcDir) ∧
          endsWithPng f = true ∧
          n = normalize_text id (splitextStem f) ++ strCodes ".png" ∧
          i = bumpResize img (50, 50) Resampling.lanczos) :=
  c7_resize_logos_normalizes id bumpResize
    [(strCodes "Café.png", some 3), (strCodes "notes.txt", Option.none)]
    [(strCodes "stale.png", 0)] (by decide)

/-- C1: over a logo directory freshly written by the normalizer, a
category value is placed as the logo image centred at the row's `(x, y)`
exactly when some listed source `.png` has a stem whose normalized form
equals the normalized category value: build and lookup share
`normalize_text`. -/
theorem c1_logo_lookup_iff (nfc : Text → Text) (resize : ResizeFn)
    (size : Nat × Nat) (src : SrcDir) (out : OutDir) (c : Text) (x y zoom : ℚ)
    (hrun : resizeLoop nfc resize size src [] = .ok out) :
    (∃ img, add_logo_marker nfc out x y (.str c) zoom =
      .ok (.logo x y img zoom)) ↔
      ∃ f i, (f, i) ∈ src ∧ endsWithPng f = true ∧
        normalize_text nfc (splitextStem f) = normalize_text nfc c := by
  have hdom := resizeLoop_ok_lookup nfc resize size src [] out hrun
    (normalize_text nfc c ++ strCodes ".png")
  constructor
  · rintro ⟨img, hm⟩
    have hsome :
        (lookupA out (normalize_text nfc c ++ strCodes ".png")).isSome =
          true := by
      cases hl : lookupA out (normalize_text nfc c ++ strCodes ".png") with
      | none =>
        rw [show add_logo_marker nfc out x y (.str c) zoom =
          .ok (.dot x y (strCodes "red") 50 c) from by
            simp only [add_logo_marker, hl]] at hm
        exact absurd hm (by simp)
      | some v => rfl
    rcases hdom.mp hsome with ⟨f, i, hmem, hp, hn⟩ | habs
    · exact ⟨f, i, hmem, hp, (List.append_left_injective _ hn).symm⟩
    · exact absurd habs (by simp [lookupA])
  · rintro ⟨f, i, hmem, hp, hn⟩
    have hsome := hdom.mpr (Or.inl ⟨f, i, hmem, hp, by rw [hn]⟩)
    obtain ⟨img, himg⟩ := Option.isSome_iff_exists.mp hsome
    exact ⟨img, by simp only [add_logo_marker, himg]⟩

/-- Witness for C1: a case-mangled category label still finds the logo
written from the differently-cased source file. -/
theorem c1_witness :
    ∃ img, add_logo_marker id [(strCodes "colo colo.png", 11)] 1 2
      (.str (strCodes "COLO COLO")) (2 / 5) = .ok (.logo 1 2 img (2 / 5)) :=
  (c1_logo_lookup_iff id idResize (50, 50)
    [(strCodes "Colo Colo.png", some 11)] [(strCodes "colo colo.png", 11)]
    (strCodes "COLO COLO") 1 2 (2 / 5) rfl).mpr
    ⟨strCodes "Colo Colo.png", some 11, by decide, by decide, by decide⟩

/-- C10: `normalize_text` is not injective — an accented file name and an
unaccented one collide — and when both are listed, the one processed
later silently overwrites the earlier one's output, leaving fewer files
than sources. -/
theorem c10_collision_overwrite (nfc : Text → Text) (resize : ResizeFn)
    (i1 i2 : Image) (hnfc : nfcAsciiId nfc)
    (hacc : nfc (strCodes "Café") = strCodes "Café") :
    strCodes "Café.png" ≠ strCodes "caf.png" ∧
    normalize_text nfc (splitextStem (strCodes "Café.png")) =
      normalize_text nfc (splitextStem (strCodes "caf.png")) ∧
    resize_logos nfc resize
      [(strCodes "Café.png", some i1), (strCodes "caf.png", some i2)]
      false [] (50, 50) =
      ⟨true, [(strCodes "caf.png", resize i2 (50, 50) .lanczos)], false⟩ ∧
    ([(strCodes "caf.png", resize i2 (50, 50) .lanczos)] : OutDir).length <
      ([(strCodes "Café.png", some i1),
        (strCodes "caf.png", some i2)] : SrcDir).length := by
  have h1 : normalize_text nfc (splitextStem (strCodes "Café.png")) =
      strCodes "caf" := by
    rw [show splitextStem (strCodes "Café.png") = strCodes "Café" from by
      decide]
    show (asciiIgnore (nfc (strCodes "Café"))).map lowerCp = strCodes "caf"
    rw [hacc]
    decide
  have h2 : normalize_text nfc (splitextStem (strCodes "caf.png")) =
      strCodes "caf" := by
    rw [show splitextStem (strCodes "caf.png") = strCodes "caf" from by
      decide]
    show (asciiIgnore (nfc (strCodes "caf"))).map lowerCp = strCodes "caf"
    rw [hnfc _ (by
      show ∀ c ∈ strCodes "caf", c < 128
      decide)]
    decide
  have e1 : endsWithPng (strCodes "Café.png") = true := by decide
  have e2 : endsWithPng (strCodes "caf.png") = true := by decide
  have ha : strCodes "caf" ++ strCodes ".png" = strCodes "caf.png" := by
    decide
  have hstep : resizeLoop nfc resize (50, 50)
      [(strCodes "Café.png", some i1), (strCodes "caf.png", some i2)] [] =
      .ok [(strCodes "caf.png", resize i2 (50, 50) .lanczos)] := by
    simp only [resizeLoop, e1, e2, if_true, h1, h2, ha]
    rw [show writeFile
        (writeFile [] (strCodes "caf.png") (resize i1 (50, 50) .lanczos))
        (strCodes "caf.png") (resize i2 (50, 50) .lanczos) =
        [(strCodes "caf.png", resize i2 (50, 50) .lanczos)] from by
      simp [writeFile, lookupA]]
  refine ⟨by decide, h1.trans h2.symm, ?_, by simp⟩
  show (match resizeLoop nfc resize (50, 50)
      [(strCodes "Café.png", some i1), (strCodes "caf.png", some i2)]
      (if false then [] else []) with
    | .ok e => (⟨true, e, false⟩ : ResizeOutcome)
    | .error e => ⟨true, e, true⟩) =
    ⟨true, [(strCodes "caf.png", resize i2 (50, 50) .lanczos)], false⟩
  rw [show (if false then ([] : OutDir) else []) = [] from rfl, hstep]

/-- Witness for C10 with `nfc` the identity (which fixes both the ASCII
strings and the already-composed accented name). -/
theorem c10_witness :
    strCodes "Café.png" ≠ strCodes "caf.png" ∧
    normalize_text id (splitextStem (strCodes "Café.png")) =
      normalize_text id (splitextStem (strCodes "caf.png")) ∧
    resize_logos id idResize
      [(strCodes "Café.png", some 1), (strCodes "caf.png", some 2)]
      false [] (50, 50) = ⟨true, [(strCodes "caf.png", 2)], false⟩ ∧
    ([(strCodes "caf.png", 2)] : OutDir).length <
      ([(strCodes "Café.png", some 1),
        (strCodes "caf.png", some 2)] : SrcDir).length :=
  c10_collision_overwrite id idResize 1 2 (fun _ _ => rfl) rfl

/-- C3: over a dataset whose rows passing the numeric check carry string
category values, the row loop raises nothing and returns exactly one
marker per row whose x and y cells are both numeric, in order; rows
failing the check contribute no marker. -/
theorem c3_row_validation (nfc : Text → Text) (dir : OutDir) (xc yc : Text)
    (df : List Row)
    (hteam : ∀ row ∈ df, validRow xc yc row = true →
      isStrV (rowGet row equipoCol) = true) :
    plotMarkers nfc dir xc yc df =
      .ok ((df.filter (validRow xc yc)).map (rowMarker nfc dir xc yc)) := by
  induction df with
  | nil => rfl
  | cons row rest ih =>
    have hrest := fun r hr => hteam r (List.mem_cons_of_mem _ hr)
    by_cases hv : validRow xc yc row = true
    · have hs := hteam row (List.mem_cons_self _ _) hv
      obtain ⟨s, hseq⟩ : ∃ s, rowGet row equipoCol = .str s := by
        cases h : rowGet row equipoCol with
        | str s => exact ⟨s, rfl⟩
        | int n => rw [h] at hs; exact absurd hs (by simp [isStrV])
        | float q => rw [h] at hs; exact absurd hs (by simp [isStrV])
        | none => rw [h] at hs; exact absurd hs (by simp [isStrV])
      have hcond : (isRealNum (rowGet row xc) &&
          isRealNum (rowGet row yc)) = true := hv
      have hmarker : add_logo_marker nfc dir (toQ (rowGet row xc))
          (toQ (rowGet row yc)) (rowGet row equipoCol) (2 / 5) =
          .ok (rowMarker nfc dir xc yc row) := by
        cases hl : lookupA dir (normalize_text nfc s ++ strCodes ".png") with
        | some img =>
          simp only [add_logo_marker, rowMarker, hseq, strTeam, hl]
        | none =>
          simp only [add_logo_marker, rowMarker, hseq, strTeam, hl]
      simp only [plotMarkers]
      rw [if_pos hcond, hmarker, ih hrest]
      show Except.ok (rowMarker nfc dir xc yc row ::
        (rest.filter (validRow xc yc)).map (rowMarker nfc dir xc yc)) = _
      simp [List.filter_cons, hv]
    · have hv' : validRow xc yc row = false := by
        simpa using hv
      have hcond : ¬(isRealNum (rowGet row xc) &&
          isRealNum (rowGet row yc)) = true := hv
      simp only [plotMarkers]
      rw [if_neg hcond, ih hrest]
      simp [List.filter_cons, hv']

/-- Witness for C3: a valid row and a row with a non-numeric x cell; only
the valid row yields a marker (here the fallback dot, the logo directory
being empty). -/
theorem c3_witness :
    plotMarkers id [] (strCodes "X") (strCodes "Y") sampleDf =
      .ok ((sampleDf.filter (validRow (strCodes "X") (strCodes "Y"))).map
        (rowMarker id [] (strCodes "X") (strCodes "Y"))) :=
  c3_row_validation id [] (strCodes "X") (strCodes "Y") sampleDf (by decide)

end TeamScatter
